import Mathlib

/-!
Verification of the simple balance-tracking AIR example: the width-3 row
layout (balance, input, output), its single transition constraint, the
row-view reinterpretation between flat and structured traces, and the
random trace generator over the BabyBear prime field.

Machine integers are modelled as Nat with explicit reduction modulo 2^32
where the source performs u32 arithmetic; field elements are canonical
representatives below the BabyBear modulus.
-/

/-- BabyBear prime modulus, 2^31 - 2^27 + 1. -/
def P : Nat := 2013265921

/-- Modulus of 32-bit unsigned (u32) arithmetic. -/
def U32 : Nat := 4294967296

theorem P_pos : 0 < P := by decide

/-- A BabyBear field element, stored as its canonical representative. -/
structure BabyBear where
  val : Nat
  isLt : val < P
deriving DecidableEq

/-- Field addition on canonical representatives: (a + b) mod P. -/
instance : Add BabyBear :=
  ⟨fun a b => ⟨(a.val + b.val) % P, Nat.mod_lt _ P_pos⟩⟩

/-- Field subtraction on canonical representatives: (a - b) mod P. -/
instance : Sub BabyBear :=
  ⟨fun a b => ⟨(a.val + (P - b.val)) % P, Nat.mod_lt _ P_pos⟩⟩

/-- Release-mode semantics of PrimeField32::from_canonical_u32 for BabyBear:
the Montgomery conversion reduces any u32 modulo P. The documented
precondition (a debug assertion in the library) is n < P. -/
def from_canonical_u32 (n : Nat) : BabyBear := ⟨n % P, Nat.mod_lt _ P_pos⟩

/-- PrimeField32::as_canonical_u32: the canonical representative. -/
def as_canonical_u32 (a : BabyBear) : Nat := a.val

theorem add_val (a b : BabyBear) : (a + b).val = (a.val + b.val) % P := rfl

theorem sub_val (a b : BabyBear) : (a - b).val = (a.val + (P - b.val)) % P := rfl

/-- Row width of the SimpleState AIR (SS_ROW_WIDTH in the source). -/
def SS_ROW_WIDTH : Nat := 3

/-- One structured trace row: (balance, input, output), generic over the
algebra exactly as SimStateRow of the source is generic over F. -/
structure SimStateRow (α : Type) where
  balance : α
  input : α
  output : α
deriving DecidableEq

/-- The SimpleState AIR (an empty struct in the source). -/
structure SimpleState

/-- BaseAir::width for SimpleState: the constant SS_ROW_WIDTH. -/
def SimpleState.width : Nat := SS_ROW_WIDTH

/-- Air::eval for SimpleState, over an arbitrary algebra with addition and
subtraction: the list of (left, right) pairs asserted equal by the builder.
The source calls builder.when_transition().assert_eq(local.balance +
local.input - local.output, next.balance), i.e. the single pair is
asserted exactly when the transition selector is active, and nothing is
asserted on the boundary row. -/
def SimpleState.eval {α : Type} [Add α] [Sub α]
    (loc nxt : SimStateRow α) (is_transition : Bool) : List (α × α) :=
  if is_transition then [(loc.balance + loc.input - loc.output, nxt.balance)] else []

/-- Flattening of structured rows into the row-major flat sequence, the
inverse direction of the align_to reinterpretation used by the source. -/
def flattenRows {α : Type} : List (SimStateRow α) → List α
  | [] => []
  | r :: rs => r.balance :: r.input :: r.output :: flattenRows rs

/-- The structure direction of the row view: reinterpret a flat sequence
as rows of width 3. The source realizes this with an unsafe align_to cast
whose debug assertions reject any length that is not an exact multiple of
the row width; the failure branch is modelled as none. -/
def structRows {α : Type} : List α → Option (List (SimStateRow α))
  | [] => some []
  | b :: i :: o :: rest => Option.map (fun rs => ⟨b, i, o⟩ :: rs) (structRows rest)
  | _ => none

theorem flattenRows_length {α : Type} (rs : List (SimStateRow α)) :
    (flattenRows rs).length = SS_ROW_WIDTH * rs.length := by
  induction rs with
  | nil => rfl
  | cons r rest ih =>
    simp [flattenRows, ih, SS_ROW_WIDTH]
    omega

theorem structRows_spec {α : Type} :
    ∀ (n : Nat) (l : List α), l.length ≤ n →
      (((structRows l).isSome = true) ↔ l.length % 3 = 0) ∧
      (∀ rs, structRows l = some rs → rs.length = l.length / 3) := by
  intro n
  induction n with
  | zero =>
    intro l hl
    have : l = [] := List.eq_nil_of_length_eq_zero (Nat.le_zero.mp hl)
    subst this
    exact ⟨by simp [structRows], fun rs h => by simp [structRows] at h; simp [h.symm]⟩
  | succ m ih =>
    intro l hl
    match l with
    | [] =>
      exact ⟨by simp [structRows], fun rs h => by simp [structRows] at h; simp [h.symm]⟩
    | [a] =>
      exact ⟨by simp [structRows], fun rs h => by simp [structRows] at h⟩
    | [a, b] =>
      exact ⟨by simp [structRows], fun rs h => by simp [structRows] at h⟩
    | a :: b :: c :: rest =>
      have hr : rest.length ≤ m := by
        simp [List.length_cons] at hl
        omega
      obtain ⟨h1, h2⟩ := ih rest hr
      constructor
      · cases hsr : structRows rest with
        | none =>
          simp [structRows, hsr, List.length_cons]
          simp [hsr] at h1
          omega
        | some rs' =>
          simp [structRows, hsr, List.length_cons]
          have := h1.mp (by simp [hsr])
          omega
      · intro rs h
        cases hsr : structRows rest with
        | none => simp [structRows, hsr] at h
        | some rs' =>
          simp [structRows, hsr] at h
          have hlen := h2 rs' hsr
          simp [h.symm, List.length_cons, hlen]
          omega

/-- C1: for every pair of adjacent rows and every algebra with addition and
subtraction, eval asserts the single equality local.balance + local.input -
local.output = next.balance exactly when the transition selector is active,
and asserts nothing on the boundary (final) row. -/
theorem c1_eval_transition_constraint {α : Type} [Add α] [Sub α]
    (loc nxt : SimStateRow α) :
    SimpleState.eval loc nxt true = [(loc.balance + loc.input - loc.output, nxt.balance)] ∧
    SimpleState.eval loc nxt false = [] :=
  ⟨rfl, rfl⟩

/-- C3: re-structuring the flattening of any structured trace succeeds and
returns exactly the original rows, with every field value, the size and the
element order preserved. -/
theorem c3_flatten_structure_roundtrip {α : Type} (rs : List (SimStateRow α)) :
    structRows (flattenRows rs) = some rs := by
  induction rs with
  | nil => rfl
  | cons r rest ih =>
    cases r
    simp [flattenRows, structRows, ih]

/-- C7: the structure operation of the row view succeeds exactly when the
flat length is a multiple of the row width 3 (otherwise the construction
fails fatally), and on success it returns a view of length len / 3 rows. -/
theorem c7_structure_length_check {α : Type} (l : List α) :
    (((structRows l).isSome = true) ↔ l.length % 3 = 0) ∧
    (∀ rs, structRows l = some rs → rs.length = l.length / 3) :=
  structRows_spec l.length l (Nat.le_refl _)

theorem c7_witness :
    ([⟨0, 1, 2⟩, ⟨3, 4, 5⟩] : List (SimStateRow Nat)).length =
      ([0, 1, 2, 3, 4, 5] : List Nat).length / 3 :=
  (c7_structure_length_check ([0, 1, 2, 3, 4, 5] : List Nat)).2
    [⟨0, 1, 2⟩, ⟨3, 4, 5⟩] (by rfl)

/-- Models rand::Rng::gen_range(lo..hi): a uniform draw from [lo, hi),
driven by an arbitrary natural pick; an empty range makes gen_range panic,
modelled as none. -/
def genRange (lo hi pick : Nat) : Option Nat :=
  if lo < hi then some (lo + pick % (hi - lo)) else none

/-- The lower bound of the output-sampling range as the source computes it:
low = high * 2 / 3 in u32 arithmetic, so the product wraps modulo 2^32. -/
def lowOf (high : Nat) : Nat := high * 2 % U32 / 3

/-- The randomness consumed by one run of random_trace: the field element
returned by rng.gen at loop iteration i, and the pick driving the
gen_range draw at loop iteration i. -/
structure Rng where
  inputs : Nat → BabyBear
  picks : Nat → Nat

/-- The integer sampled by gen_range(low..high) in one loop iteration of
random_trace, at state r (the previous row) with fresh input inp: high is
the u32 sum of the canonical representatives of the next balance and the
input, low is high * 2 / 3 in u32 arithmetic. -/
def stepSample (r : SimStateRow BabyBear) (inp : BabyBear) (pick : Nat) : Option Nat :=
  genRange
    (lowOf ((as_canonical_u32 (r.balance + r.input - r.output) + as_canonical_u32 inp) % U32))
    ((as_canonical_u32 (r.balance + r.input - r.output) + as_canonical_u32 inp) % U32)
    pick

/-- One loop iteration of random_trace: the next row carries the enforced
balance r.balance + r.input - r.output, the fresh input, and the sampled
output converted by from_canonical_u32. -/
def step (r : SimStateRow BabyBear) (inp : BabyBear) (pick : Nat) : Option (SimStateRow BabyBear) :=
  Option.map
    (fun v => ⟨r.balance + r.input - r.output, inp, from_canonical_u32 v⟩)
    (stepSample r inp pick)

/-- Row 0 of the generated trace, seeded with fixed literals. -/
def seedRow : SimStateRow BabyBear :=
  ⟨from_canonical_u32 100000, from_canonical_u32 12345, from_canonical_u32 54321⟩

/-- The sequential generation loop: rowsFrom rng idx r k produces r
followed by k more rows, each obtained from its predecessor by step with
the randomness of loop iteration idx, idx+1, and so on; a panic in any
iteration aborts the whole run. -/
def rowsFrom (rng : Rng) : Nat → SimStateRow BabyBear → Nat → Option (List (SimStateRow BabyBear))
  | _idx, r, 0 => some [r]
  | idx, r, k + 1 =>
    match step r (rng.inputs idx) (rng.picks idx) with
    | none => none
    | some r2 => Option.map (fun l => r :: l) (rowsFrom rng (idx + 1) r2 k)

/-- random_trace of the source: n = 1024 rows, row 0 seeded with the fixed
literals, rows 1..1023 generated front-to-back by the loop. -/
def random_trace (rng : Rng) : Option (List (SimStateRow BabyBear)) :=
  rowsFrom rng 1 seedRow 1023

/-- Default row used by list indexing with getD. -/
def dRow : SimStateRow BabyBear :=
  ⟨from_canonical_u32 0, from_canonical_u32 0, from_canonical_u32 0⟩

/-- Row i of the trace generated by rng (dRow when out of range or after a
panic). -/
def traceRow (rng : Rng) (i : Nat) : SimStateRow BabyBear :=
  ((random_trace rng).getD []).getD i dRow

/-- Number of rows of the trace generated by rng (0 after a panic). -/
def traceLen (rng : Rng) : Nat := ((random_trace rng).getD []).length

/-- An all-zero randomness stream: every generated input is 0 and every
gen_range draw picks the low end of its range. -/
def zeroR : Rng := ⟨fun _ => from_canonical_u32 0, fun _ => 0⟩

/-- A randomness stream whose run reaches, at loop iteration 2, the state
balance = 500000000, input = 2013265920: high = 2513265920 is at least
2^31, so the u32 product high * 2 wraps and the sampled output falls below
the ideal two-thirds bound; the run still completes all 1024 rows. -/
def cex5Rng : Rng :=
  ⟨fun i => if i = 1 then from_canonical_u32 2013265920
    else if i = 2 then from_canonical_u32 2013265920 else from_canonical_u32 1,
   fun i => if i = 1 then 171107982 else if i = 2 then 256145151 else 0⟩

/-- A randomness stream whose run reaches, at loop iteration 3, the state
balance = 0, input = 0: high = 0 makes the sampling range [0, 0) empty and
gen_range panics, aborting the run. -/
def cex6Rng : Rng :=
  ⟨fun i => if i = 1 then from_canonical_u32 2013265920
    else if i = 2 then from_canonical_u32 2013265920 else from_canonical_u32 0,
   fun i => if i = 1 then 171107982 else if i = 2 then 256145151 else 0⟩

/-- A randomness stream whose very first loop iteration samples the output
value 2013265921 = P, which is not a canonical representative; the run
still completes all 1024 rows. -/
def cex10Rng : Rng :=
  ⟨fun i => if i = 1 then from_canonical_u32 2013265920 else from_canonical_u32 1,
   fun i => if i = 1 then 671049959 else 0⟩

set_option maxRecDepth 40000

theorem step_some (r : SimStateRow BabyBear) (inp : BabyBear) (pick : Nat)
    (r' : SimStateRow BabyBear) (h : step r inp pick = some r') :
    ∃ v, stepSample r inp pick = some v ∧
      r' = ⟨r.balance + r.input - r.output, inp, from_canonical_u32 v⟩ := by
  cases hv : stepSample r inp pick with
  | none => simp [step, hv] at h
  | some v =>
    simp [step, hv] at h
    exact ⟨v, rfl, h.symm⟩

theorem rowsFrom_length (rng : Rng) :
    ∀ (k idx : Nat) (r : SimStateRow BabyBear) (l : List (SimStateRow BabyBear)),
      rowsFrom rng idx r k = some l → l.length = k + 1 := by
  intro k
  induction k with
  | zero =>
    intro idx r l h
    simp [rowsFrom] at h
    simp [h.symm]
  | succ m ih =>
    intro idx r l h
    cases hs : step r (rng.inputs idx) (rng.picks idx) with
    | none => simp [rowsFrom, hs] at h
    | some r2 =>
      cases hrec : rowsFrom rng (idx + 1) r2 m with
      | none => simp [rowsFrom, hs, hrec] at h
      | some l' =>
        simp [rowsFrom, hs, hrec] at h
        have := ih (idx + 1) r2 l' hrec
        simp [h.symm, List.length_cons, this]

theorem rowsFrom_head (rng : Rng) (k idx : Nat) (r : SimStateRow BabyBear)
    (l : List (SimStateRow BabyBear)) (h : rowsFrom rng idx r k = some l) :
    l.getD 0 dRow = r := by
  cases k with
  | zero =>
    simp [rowsFrom] at h
    simp [h.symm]
  | succ m =>
    cases hs : step r (rng.inputs idx) (rng.picks idx) with
    | none => simp [rowsFrom, hs] at h
    | some r2 =>
      cases hrec : rowsFrom rng (idx + 1) r2 m with
      | none => simp [rowsFrom, hs, hrec] at h
      | some l' =>
        simp [rowsFrom, hs, hrec] at h
        simp [h.symm]

theorem rowsFrom_chain (rng : Rng) :
    ∀ (k idx : Nat) (r : SimStateRow BabyBear) (l : List (SimStateRow BabyBear)),
      rowsFrom rng idx r k = some l →
      ∀ j, j + 1 < l.length →
        step (l.getD j dRow) (rng.inputs (idx + j)) (rng.picks (idx + j)) =
          some (l.getD (j + 1) dRow) := by
  intro k
  induction k with
  | zero =>
    intro idx r l h j hj
    simp [rowsFrom] at h
    rw [h.symm] at hj
    simp at hj
  | succ m ih =>
    intro idx r l h j hj
    cases hs : step r (rng.inputs idx) (rng.picks idx) with
    | none => simp [rowsFrom, hs] at h
    | some r2 =>
      cases hrec : rowsFrom rng (idx + 1) r2 m with
      | none => simp [rowsFrom, hs, hrec] at h
      | some l' =>
        simp [rowsFrom, hs, hrec] at h
        rw [h.symm] at hj
        rw [h.symm]
        cases j with
        | zero =>
          show step r (rng.inputs (idx + 0)) (rng.picks (idx + 0)) = some (l'.getD 0 dRow)
          rw [rowsFrom_head rng m (idx + 1) r2 l' hrec]
          simpa using hs
        | succ j' =>
          have hj' : j' + 1 < l'.length := by
            simp [List.length_cons] at hj
            omega
          have hch := ih (idx + 1) r2 l' hrec j' hj'
          show step (l'.getD j' dRow) (rng.inputs (idx + (j' + 1))) (rng.picks (idx + (j' + 1))) =
            some (l'.getD (j' + 1) dRow)
          have hidx : idx + (j' + 1) = idx + 1 + j' := by omega
          rw [hidx]
          exact hch

theorem trace_chain (rng : Rng) (i : Nat)
    (hs : (random_trace rng).isSome = true) (hi : i + 1 < traceLen rng) :
    step (traceRow rng i) (rng.inputs (1 + i)) (rng.picks (1 + i)) =
      some (traceRow rng (i + 1)) := by
  obtain ⟨l, hl⟩ := Option.isSome_iff_exists.mp hs
  have hi' : i + 1 < l.length := by
    unfold traceLen at hi
    rw [hl] at hi
    exact hi
  have hch := rowsFrom_chain rng 1023 1 seedRow l hl i hi'
  unfold traceRow
  rw [hl]
  exact hch

theorem trace_length_1024 (rng : Rng) (hs : (random_trace rng).isSome = true) :
    traceLen rng = 1024 := by
  obtain ⟨l, hl⟩ := Option.isSome_iff_exists.mp hs
  unfold traceLen
  rw [hl]
  simpa using rowsFrom_length rng 1023 1 seedRow l hl

/-- C2: for every randomness stream whose run completes, every pair of
adjacent generated rows satisfies balance of the next row = balance +
input - output of the current row, as field elements, by construction. -/
theorem c2_trace_transition_invariant (rng : Rng) (i : Nat)
    (hs : (random_trace rng).isSome = true) (hi : i + 1 < traceLen rng) :
    (traceRow rng (i + 1)).balance =
      (traceRow rng i).balance + (traceRow rng i).input - (traceRow rng i).output := by
  obtain ⟨v, hv, hr⟩ := step_some _ _ _ _ (trace_chain rng i hs hi)
  rw [hr]

theorem c2_witness :
    (random_trace zeroR).isSome = true ∧ 0 + 1 < traceLen zeroR ∧
    (traceRow zeroR (0 + 1)).balance =
      (traceRow zeroR 0).balance + (traceRow zeroR 0).input - (traceRow zeroR 0).output :=
  ⟨by decide, by decide, c2_trace_transition_invariant zeroR 0 (by decide) (by decide)⟩

/-- C4: row 0 is seeded with the literals (100000, 12345, 54321), and row 1
of any completed run has balance 100000 + 12345 - 54321 = 58024 as a field
element. -/
theorem c4_seed_row1_balance (rng : Rng) (hs : (random_trace rng).isSome = true) :
    traceRow rng 0 = seedRow ∧ (traceRow rng 1).balance = from_canonical_u32 58024 := by
  obtain ⟨l, hl⟩ := Option.isSome_iff_exists.mp hs
  have h0 : traceRow rng 0 = seedRow := by
    unfold traceRow
    rw [hl]
    simpa using rowsFrom_head rng 1023 1 seedRow l hl
  refine ⟨h0, ?_⟩
  have hi : 0 + 1 < traceLen rng := by
    rw [trace_length_1024 rng hs]
    omega
  obtain ⟨v, hv, hr⟩ := step_some _ _ _ _ (trace_chain rng 0 hs hi)
  rw [show (1 : Nat) = 0 + 1 from rfl, hr, h0]
  show seedRow.balance + seedRow.input - seedRow.output = from_canonical_u32 58024
  decide

theorem c4_witness :
    (random_trace zeroR).isSome = true ∧
    (traceRow zeroR 0 = seedRow ∧ (traceRow zeroR 1).balance = from_canonical_u32 58024) :=
  ⟨by decide, c4_seed_row1_balance zeroR (by decide)⟩

/-- C8: every completed run of random_trace yields exactly 1024 rows, whose
row-major flat form holds 3 * 1024 field elements, at the declared width 3;
the row count is the fixed reference value 1024 and the randomness stream
is the generator's only variable input. -/
theorem c8_trace_shape (rng : Rng) (hs : (random_trace rng).isSome = true) :
    traceLen rng = 1024 ∧
    (flattenRows ((random_trace rng).getD [])).length = SS_ROW_WIDTH * 1024 ∧
    SimpleState.width = 3 := by
  obtain ⟨l, hl⟩ := Option.isSome_iff_exists.mp hs
  have hlen : l.length = 1024 := by simpa using rowsFrom_length rng 1023 1 seedRow l hl
  refine ⟨trace_length_1024 rng hs, ?_, rfl⟩
  rw [hl]
  simp [Option.getD_some, flattenRows_length, hlen]

theorem c8_witness :
    (random_trace zeroR).isSome = true ∧
    (traceLen zeroR = 1024 ∧
      (flattenRows ((random_trace zeroR).getD [])).length = SS_ROW_WIDTH * 1024 ∧
      SimpleState.width = 3) :=
  ⟨by decide, c8_trace_shape zeroR (by decide)⟩

theorem val_add_lt_u32 (a b : BabyBear) : a.val + b.val < U32 := by
  have h1 := a.isLt
  have h2 := b.isLt
  unfold P at h1 h2
  unfold U32
  omega

theorem genRange_some (lo hi pick v : Nat) (h : genRange lo hi pick = some v) :
    lo ≤ v ∧ v < hi := by
  unfold genRange at h
  by_cases hc : lo < hi
  · simp [hc] at h
    have hm : pick % (hi - lo) < hi - lo := Nat.mod_lt _ (by omega)
    omega
  · simp [hc] at h

theorem stepSample_bounds (r : SimStateRow BabyBear) (inp : BabyBear) (pick v : Nat)
    (h : stepSample r inp pick = some v) :
    lowOf ((r.balance + r.input - r.output).val + inp.val) ≤ v ∧
    v < (r.balance + r.input - r.output).val + inp.val := by
  have hm : ((r.balance + r.input - r.output).val + inp.val) % U32 =
      (r.balance + r.input - r.output).val + inp.val :=
    Nat.mod_eq_of_lt (val_add_lt_u32 _ _)
  unfold stepSample as_canonical_u32 at h
  rw [hm] at h
  exact genRange_some _ _ _ _ h

theorem val_sub_formula (s o : Nat) (h1 : s * 2 / 3 ≤ o) (h2 : o < s) (h3 : s ≤ P)
    (h4 : o < P) : (s % P + (P - o)) % P = s - o := by
  unfold P at *
  omega

/-- C5 counterexample: with this randomness stream the run completes, but
row 2 has balance 500000000 and input 2013265920, so high = 2513265920 is
at least 2^31, the u32 product wraps, and the sampled output 499999999
falls strictly below the claimed lower bound (2/3) * (balance + input);
moreover the canonical balance of row 3 is 0, not the integer difference
2013265921, so the claimed no-wraparound property also fails. -/
theorem c5_counterexample :
    (random_trace cex5Rng).isSome = true ∧
    (traceRow cex5Rng 2).output.val <
      ((traceRow cex5Rng 2).balance.val + (traceRow cex5Rng 2).input.val) * 2 / 3 ∧
    (traceRow cex5Rng 3).balance.val ≠
      (traceRow cex5Rng 2).balance.val + (traceRow cex5Rng 2).input.val -
        (traceRow cex5Rng 2).output.val := by
  decide

/-- C5 amended: for every generated row i of a completed run, with 1 <= i
and i + 1 in range, whose canonical balance plus canonical input is at most
the modulus P, the canonical output lies in the sampled integer range
[(balance + input) * 2 / 3, balance + input), and the canonical balance of
row i + 1 equals the integer difference balance + input - output with no
field wraparound; without the bound by P both properties can fail. -/
theorem c5_output_range_amended (rng : Rng) (i : Nat)
    (hs : (random_trace rng).isSome = true)
    (h1 : 1 ≤ i)
    (hi : i + 1 < traceLen rng)
    (hP : (traceRow rng i).balance.val + (traceRow rng i).input.val ≤ P) :
    ((traceRow rng i).balance.val + (traceRow rng i).input.val) * 2 / 3 ≤
      (traceRow rng i).output.val ∧
    (traceRow rng i).output.val < (traceRow rng i).balance.val + (traceRow rng i).input.val ∧
    (traceRow rng (i + 1)).balance.val =
      (traceRow rng i).balance.val + (traceRow rng i).input.val -
        (traceRow rng i).output.val := by
  obtain ⟨j, rfl⟩ : ∃ j, i = j + 1 := ⟨i - 1, by omega⟩
  have hij : j + 1 < traceLen rng := by omega
  obtain ⟨v, hv, hr⟩ := step_some _ _ _ _ (trace_chain rng j hs hij)
  have hb := stepSample_bounds _ _ _ _ hv
  have e1 : (traceRow rng (j + 1)).balance =
      (traceRow rng j).balance + (traceRow rng j).input - (traceRow rng j).output := by
    rw [hr]
  have e2 : (traceRow rng (j + 1)).input = rng.inputs (1 + j) := by rw [hr]
  have e3 : (traceRow rng (j + 1)).output = from_canonical_u32 v := by rw [hr]
  have hsum : (traceRow rng (j + 1)).balance.val + (traceRow rng (j + 1)).input.val =
      ((traceRow rng j).balance + (traceRow rng j).input - (traceRow rng j).output).val +
        (rng.inputs (1 + j)).val := by
    rw [e1, e2]
  rw [hsum] at hP ⊢
  have hvP : v < P := by omega
  have e4 : (traceRow rng (j + 1)).output.val = v := by
    rw [e3]
    show v % P = v
    exact Nat.mod_eq_of_lt hvP
  have hwrap : (((traceRow rng j).balance + (traceRow rng j).input -
      (traceRow rng j).output).val + (rng.inputs (1 + j)).val) * 2 % U32 =
      (((traceRow rng j).balance + (traceRow rng j).input -
        (traceRow rng j).output).val + (rng.inputs (1 + j)).val) * 2 := by
    apply Nat.mod_eq_of_lt
    unfold P at hP
    unfold U32
    omega
  have hlow : lowOf (((traceRow rng j).balance + (traceRow rng j).input -
      (traceRow rng j).output).val + (rng.inputs (1 + j)).val) =
      (((traceRow rng j).balance + (traceRow rng j).input -
        (traceRow rng j).output).val + (rng.inputs (1 + j)).val) * 2 / 3 := by
    unfold lowOf
    rw [hwrap]
  rw [hlow] at hb
  rw [e4]
  refine ⟨hb.1, hb.2, ?_⟩
  obtain ⟨w, hw, hr2⟩ := step_some _ _ _ _ (trace_chain rng (j + 1) hs hi)
  have e5 : (traceRow rng (j + 1 + 1)).balance =
      (traceRow rng (j + 1)).balance + (traceRow rng (j + 1)).input -
        (traceRow rng (j + 1)).output := by
    rw [hr2]
  rw [e5, sub_val, add_val, hsum, e4]
  exact val_sub_formula _ _ hb.1 hb.2 hP hvP

theorem c5_witness :
    (random_trace zeroR).isSome = true ∧ 1 ≤ 1 ∧ 1 + 1 < traceLen zeroR ∧
    (traceRow zeroR 1).balance.val + (traceRow zeroR 1).input.val ≤ P ∧
    (((traceRow zeroR 1).balance.val + (traceRow zeroR 1).input.val) * 2 / 3 ≤
        (traceRow zeroR 1).output.val ∧
      (traceRow zeroR 1).output.val <
        (traceRow zeroR 1).balance.val + (traceRow zeroR 1).input.val ∧
      (traceRow zeroR (1 + 1)).balance.val =
        (traceRow zeroR 1).balance.val + (traceRow zeroR 1).input.val -
          (traceRow zeroR 1).output.val) :=
  ⟨by decide, by decide, by decide, by decide,
    c5_output_range_amended zeroR 1 (by decide) (by decide) (by decide) (by decide)⟩

/-- C6 counterexample: gen_range on the empty range [0, 0) panics (none)
rather than clamping, and the run with this randomness stream reaches a
state with canonical balance 0 and input 0 at loop iteration 3, so
random_trace aborts: the generator is not a total function. -/
theorem c6_counterexample :
    genRange (lowOf 0) 0 0 = none ∧ (random_trace cex6Rng).isSome = false := by
  decide

/-- C6 amended: the sampling step fails (gen_range panics, modelled as
none) exactly when the computed range is empty, low >= high; inside the
generator the computed range is empty only when high = 0, because for
every positive 32-bit high the computed low is strictly below high. So the
generator is total exactly on runs that never reach a state with
canonical(balance) + canonical(input) = 0, and the degenerate case is a
panic, not a clamped draw. -/
theorem c6_sampling_amended (lo hi pick h : Nat) :
    (genRange lo hi pick = none ↔ hi ≤ lo) ∧ (h < U32 → 0 < h → lowOf h < h) := by
  constructor
  · unfold genRange
    by_cases hc : lo < hi
    · simp [hc]
    · simp [hc]
      omega
  · intro hu hpos
    unfold lowOf U32 at *
    omega

theorem c6_witness :
    (genRange 5 5 0 = none ↔ 5 ≤ 5) ∧ lowOf 7 < 7 :=
  ⟨(c6_sampling_amended 5 5 0 7).1, (c6_sampling_amended 5 5 0 7).2 (by decide) (by decide)⟩

/-- C9 counterexample: the wrapped lower bound can never exceed high. There
is no 32-bit value high at or above 2^31 = 2147483648 for which the u32
computation low = high * 2 / 3 produces low greater than high, so the
claimed inversion of the sampling range is impossible. -/
theorem c9_counterexample :
    ¬ ∃ h : Nat, 2147483648 ≤ h ∧ h < U32 ∧ h < lowOf h := by
  rintro ⟨h, h1, h2, h3⟩
  unfold lowOf U32 at *
  omega

/-- C9 amended: the intermediate product high * 2 is computed in u32
arithmetic. For high below 2^31 the computed low is exactly
floor(high * 2 / 3); for high at or above 2^31 the product wraps modulo
2^32, the computed low equals (high * 2 - 2^32) / 3, differs from
floor(high * 2 / 3), and always stays strictly below high: the range
becomes too permissive but never empty or inverted. -/
theorem c9_low_wrap_amended (h : Nat) (hu : h < U32) :
    (h < 2147483648 → lowOf h = h * 2 / 3) ∧
    (2147483648 ≤ h →
      lowOf h = (h * 2 - U32) / 3 ∧ lowOf h ≠ h * 2 / 3 ∧ lowOf h < h) := by
  unfold lowOf U32 at *
  refine ⟨fun hc => by omega, fun hc => ⟨by omega, by omega, by omega⟩⟩

theorem c9_witness :
    3000000000 < U32 ∧
    (lowOf 3000000000 = (3000000000 * 2 - U32) / 3 ∧
      lowOf 3000000000 ≠ 3000000000 * 2 / 3 ∧ lowOf 3000000000 < 3000000000) :=
  ⟨by decide, (c9_low_wrap_amended 3000000000 (by decide)).2 (by decide)⟩

/-- C10 counterexample: at the very first loop iteration of the run driven
by this randomness stream, the trace generator samples the integer
2013265921 = P, which is not below the BabyBear modulus, so the value
passed to from_canonical_u32 violates that function's canonicity
precondition; the run still completes, storing P mod P = 0 as the output
of row 1. -/
theorem c10_counterexample :
    stepSample seedRow (cex10Rng.inputs 1) (cex10Rng.picks 1) = some 2013265921 ∧
    ¬ (2013265921 < P) ∧
    (traceRow cex10Rng 1).output = from_canonical_u32 2013265921 ∧
    (random_trace cex10Rng).isSome = true := by
  decide

/-- C10 amended: a sampled output value is always strictly below
high = canonical(balance) + canonical(input), which can reach 2 * P - 2, so
the canonicity precondition of from_canonical_u32 is guaranteed only under
the additional hypothesis high <= P; in general the sampled value can equal
or exceed the modulus. -/
theorem c10_sample_bound_amended (r : SimStateRow BabyBear) (inp : BabyBear) (pick v : Nat)
    (h : stepSample r inp pick = some v)
    (hP : (r.balance + r.input - r.output).val + inp.val ≤ P) :
    v < P := by
  have hb := (stepSample_bounds r inp pick v h).2
  omega

theorem c10_witness :
    stepSample seedRow (from_canonical_u32 0) 0 = some 38682 ∧
    (seedRow.balance + seedRow.input - seedRow.output).val + (from_canonical_u32 0).val ≤ P ∧
    38682 < P :=
  ⟨by decide, by decide,
    c10_sample_bound_amended seedRow (from_canonical_u32 0) 0 38682 (by decide) (by decide)⟩
